import Mathlib

/-!
Verification development for two UI components of an HTTP debugging tool:
the Android Frida interception config component (device/target selection
state machine) and the exchange request breakpoint editor card.

The state and operations below are a shallow embedding of the TypeScript
source. Asynchronous operations (mobx flows and promise chains) are split
into their synchronous phases: the phase up to the first yield, and the
continuation that runs when the awaited result arrives. External service
invocations are recorded as explicit effect values.
-/

set_option autoImplicit false

namespace Httptoolkit

/-- Host state strings used by the Frida interception model:
available, unavailable, launch-required, setup-required. -/
inductive HostState where
  | available
  | unavailable
  | launchRequired
  | setupRequired
deriving DecidableEq

/-- A discovered device record: FridaHost from the interception model. -/
structure FridaHost where
  id : String
  name : String
  state : HostState
deriving DecidableEq

/-- An instrumentable process on the selected host: FridaTarget. -/
structure FridaTarget where
  id : String
  name : String
deriving DecidableEq

/-- The action discriminant of FridaActivationOptions. -/
inductive FridaAction where
  | launch
  | setup
  | intercept
deriving DecidableEq

/-- Options passed to activateInterceptor: action, hostId, and for the
intercept action also a targetId. -/
structure FridaActivationOptions where
  action : FridaAction
  hostId : String
  targetId : Option String
deriving DecidableEq

/-- The observable state of the AndroidFridaConfig component:
fridaHosts (the computed view of interceptor metadata), selectedHostId,
fridaTargets, the two in-progress id arrays, and the search input. -/
structure CompState where
  fridaHosts : List FridaHost
  selectedHostId : Option String
  fridaTargets : List FridaTarget
  inProgressHostIds : List String
  inProgressTargetIds : List String
  searchInput : String
deriving DecidableEq

/-- An externally visible effect of a synchronous action: an
activateInterceptor invocation, or triggering the updateTargets flow. -/
inductive Effect where
  | activate (opts : FridaActivationOptions)
  | refreshTargets
deriving DecidableEq

/-- The selectedHost computed getter: if a host id is selected, find the
first host with that id whose state is not unavailable. -/
def selectedHost (s : CompState) : Option FridaHost :=
  match s.selectedHostId with
  | none => none
  | some hid =>
    s.fridaHosts.find? (fun h => decide (h.id = hid ∧ h.state ≠ HostState.unavailable))

/-- The deselectHost action: clears selectedHostId. -/
def deselectHost (s : CompState) : CompState :=
  { s with selectedHostId := none }

/-- The body of the autorun installed in componentDidMount: if a host id is
selected and no host in the current list has that id, deselect. -/
def runDiscoveryCheck (s : CompState) : CompState :=
  match s.selectedHostId with
  | none => s
  | some hid =>
    if s.fridaHosts.any (fun h => decide (h.id = hid)) then s else deselectHost s

/-- A discovery update: the hosts observable changes to the new list, and
the autorun reaction from componentDidMount runs on that same update. -/
def applyDiscoveryUpdate (s : CompState) (newHosts : List FridaHost) : CompState :=
  runDiscoveryCheck { s with fridaHosts := newHosts }

/-- Lodash pull: removes every element equal to the given value from the
array, in place; modelled as a filter. -/
def lodashPull (l : List String) (v : String) : List String :=
  l.filter (fun x => decide (x ≠ v))

/-- The selectHost action. It first sets selectedHostId to the given id,
then branches on the state of the selectedHost computed: available resets
the search input and triggers updateTargets; launch-required and
setup-required push the host id onto inProgressHostIds and invoke
activateInterceptor with the corresponding action; otherwise nothing else
happens. Returns the new state and the emitted effects; for an activate
effect the returned state is the state at invocation time. -/
def selectHost (s : CompState) (hostId : String) : CompState × List Effect :=
  let s1 := { s with selectedHostId := some hostId }
  match selectedHost s1 with
  | some host =>
    if host.state = HostState.available then
      ({ s1 with searchInput := "" }, [Effect.refreshTargets])
    else if host.state = HostState.launchRequired then
      ({ s1 with inProgressHostIds := s1.inProgressHostIds ++ [hostId] },
       [Effect.activate ⟨FridaAction.launch, hostId, none⟩])
    else if host.state = HostState.setupRequired then
      ({ s1 with inProgressHostIds := s1.inProgressHostIds ++ [hostId] },
       [Effect.activate ⟨FridaAction.setup, hostId, none⟩])
    else
      (s1, [])
  | none => (s1, [])

/-- The finally continuation of a launch or setup activation promise: pulls
the host id from inProgressHostIds. The Boolean records whether the promise
resolved or rejected; finally runs the same cleanup for both. -/
def hostActivationFinally (s : CompState) (hostId : String) (_outcome : Bool) : CompState :=
  { s with inProgressHostIds := lodashPull s.inProgressHostIds hostId }

/-- The interceptTarget action: if the selectedHost computed is undefined
it returns without any change; otherwise it pushes the target id onto
inProgressTargetIds and invokes activateInterceptor with action intercept,
the id of the selected host, and the target id. -/
def interceptTarget (s : CompState) (targetId : String) : CompState × List Effect :=
  match selectedHost s with
  | none => (s, [])
  | some host =>
    ({ s with inProgressTargetIds := s.inProgressTargetIds ++ [targetId] },
     [Effect.activate ⟨FridaAction.intercept, host.id, some targetId⟩])

/-- The finally continuation of an intercept activation promise: pulls the
target id from inProgressTargetIds, for either promise outcome. -/
def targetActivationFinally (s : CompState) (targetId : String) (_outcome : Bool) : CompState :=
  { s with inProgressTargetIds := lodashPull s.inProgressTargetIds targetId }

/-- The synchronous prefix of the updateTargets flow, up to the yield: with
no valid selected host it clears fridaTargets and issues no fetch; with a
selected host it issues a getDetailedInterceptorMetadata fetch for that
host id (returned as the second component) and leaves state unchanged. -/
def updateTargetsStart (s : CompState) : CompState × Option String :=
  match selectedHost s with
  | none => ({ s with fridaTargets := [] }, none)
  | some host => (s, some host.id)

/-- The continuation of the updateTargets flow after the yield: assigns the
targets of the fetched result, or the empty list when the result is
undefined, without any further check of the current selection. -/
def updateTargetsResume (s : CompState) (result : Option (List FridaTarget)) : CompState :=
  { s with fridaTargets := result.getD [] }

/-- The onSearchChange action: stores the input value in searchInput. -/
def onSearchChange (s : CompState) (value : String) : CompState :=
  { s with searchInput := value }

/-- A header value in the keyed representation: either a single string or
an ordered array of strings for a repeated header name. -/
inductive HeaderValue where
  | one (v : String)
  | many (vs : List String)
deriving DecidableEq

/-- The canonical keyed header representation (RequestHeaders): a mapping
from header names to a value or an ordered array of values, with insertion
order significant. Modelled as an ordered association list. -/
abbrev RequestHeaders := List (String × HeaderValue)

/-- The ordered pair-list representation used by the editable headers
widget: a sequence of (name, value) entries. -/
abbrev HeadersArray := List (String × String)

/-- Modelled from the spec: the editable-headers module that defines
headersToHeadersArray is referenced by the breakpoint card but is not part
of the excerpt. Per the spec, it converts the keyed headers mapping to the
ordered (name, value) pair list, expanding a repeated name into one pair
per value, in order. -/
def headersToHeadersArray : RequestHeaders → HeadersArray
  | [] => []
  | (k, HeaderValue.one v) :: rest => (k, v) :: headersToHeadersArray rest
  | (k, HeaderValue.many vs) :: rest =>
    vs.map (fun v => (k, v)) ++ headersToHeadersArray rest

/-- Inserts one (name, value) pair into the keyed representation: a new
name is appended as a single value; an existing single value becomes an
ordered array of two; an existing array gets the value appended. -/
def addHeaderPair : RequestHeaders → String → String → RequestHeaders
  | [], k, v => [(k, HeaderValue.one v)]
  | (k0, v0) :: rest, k, v =>
    if k0 = k then
      (match v0 with
       | HeaderValue.one s => (k0, HeaderValue.many [s, v])
       | HeaderValue.many ss => (k0, HeaderValue.many (ss ++ [v]))) :: rest
    else
      (k0, v0) :: addHeaderPair rest k v

/-- Modelled from the spec: the editable-headers module that defines
headersArrayToHeaders is referenced by the breakpoint card but is not part
of the excerpt. Per the spec, it converts the ordered pair sequence back to
the canonical keyed representation, preserving duplicate header names as an
ordered sequence instead of collapsing them to unique keys. -/
def headersArrayToHeaders (arr : HeadersArray) : RequestHeaders :=
  arr.foldl (fun hs p => addHeaderPair hs p.1 p.2) []

/-- A keyed header value is canonical when an array form is only used for
a genuinely repeated name, that is, holds at least two values. -/
def canonicalValue (v : HeaderValue) : Prop :=
  match v with
  | HeaderValue.one _ => True
  | HeaderValue.many vs => 2 ≤ vs.length

instance (v : HeaderValue) : Decidable (canonicalValue v) :=
  match v with
  | HeaderValue.one _ => isTrue trivial
  | HeaderValue.many vs => inferInstanceAs (Decidable (2 ≤ vs.length))

/-- A keyed headers mapping is canonical when its names are distinct keys
and every value is canonical. -/
def CanonicalHeaders (hs : RequestHeaders) : Prop :=
  (hs.map Prod.fst).Nodup ∧ ∀ p ∈ hs, canonicalValue p.2

instance (hs : RequestHeaders) : Decidable (CanonicalHeaders hs) :=
  inferInstanceAs (Decidable (_ ∧ _))

/-- The in-progress breakpoint result snapshot of a paused request: method,
url, and the keyed headers. -/
structure MockttpBreakpointRequestResult where
  method : String
  url : String
  headers : RequestHeaders
deriving DecidableEq

/-- The onMethodChanged handler of the breakpoint card: returns without
invoking onChange when the new method equals the current one; otherwise
passes onChange a copy of the in-progress result with only the method
overwritten. The returned option is the snapshot passed to onChange. -/
def onMethodChanged (r : MockttpBreakpointRequestResult) (newMethod : String) :
    Option MockttpBreakpointRequestResult :=
  if newMethod = r.method then none
  else some { r with method := newMethod }

/-- The onUrlChanged handler: passes onChange a copy of the in-progress
result with only the url overwritten. -/
def onUrlChanged (r : MockttpBreakpointRequestResult) (newUrl : String) :
    MockttpBreakpointRequestResult :=
  { r with url := newUrl }

/-- The onHeadersChanged handler: passes onChange a copy of the in-progress
result with only the headers overwritten, after converting the pair list
back to the keyed representation. -/
def onHeadersChanged (r : MockttpBreakpointRequestResult) (newHeaders : HeadersArray) :
    MockttpBreakpointRequestResult :=
  { r with headers := headersArrayToHeaders newHeaders }

/-- Claim C1, counterexample: a discovery update in which the selected host
A stays in the list but its state becomes unavailable does not clear
selectedHostId, contradicting the claim that the machine transitions back
to NoSelection (selectedHostId cleared) on that update. -/
theorem C1_counterexample :
    (applyDiscoveryUpdate
        ⟨[⟨"A", "Device A", HostState.available⟩], some "A", [], [], [], ""⟩
        [⟨"A", "Device A", HostState.unavailable⟩]).selectedHostId = some "A" ∧
    (applyDiscoveryUpdate
        ⟨[⟨"A", "Device A", HostState.available⟩], some "A", [], [], [], ""⟩
        [⟨"A", "Device A", HostState.unavailable⟩]).selectedHostId ≠ none := by
  exact ⟨by decide, by decide⟩

/-- Claim C1, amended: on every discovery update, when the selected id is
absent from the new host list, selectedHostId is cleared on that same
update; when a host with the selected id remains listed, the id is
retained, and when every host with that id is unavailable the derived
selectedHost becomes none, so the selection is only effectively empty. -/
theorem C1_discovery_update (s : CompState) (newHosts : List FridaHost) (hid : String)
    (hsel : s.selectedHostId = some hid) :
    ((∀ h ∈ newHosts, h.id ≠ hid) →
       (applyDiscoveryUpdate s newHosts).selectedHostId = none) ∧
    (∀ h ∈ newHosts, h.id = hid →
       (applyDiscoveryUpdate s newHosts).selectedHostId = some hid) ∧
    ((∀ h ∈ newHosts, h.id = hid → h.state = HostState.unavailable) →
       selectedHost (applyDiscoveryUpdate s newHosts) = none) := by
  refine ⟨?_, ?_, ?_⟩
  · intro habs
    have hcond : ¬ ((newHosts.any fun h => decide (h.id = hid)) = true) := by
      simp only [List.any_eq_true, decide_eq_true_eq]
      push_neg
      exact habs
    simp only [applyDiscoveryUpdate, runDiscoveryCheck, hsel]
    rw [if_neg hcond]
    rfl
  · intro h hmem hide
    have hcond : (newHosts.any fun h => decide (h.id = hid)) = true := by
      simp only [List.any_eq_true, decide_eq_true_eq]
      exact ⟨h, hmem, hide⟩
    simp only [applyDiscoveryUpdate, runDiscoveryCheck, hsel]
    rw [if_pos hcond]
  · intro hunav
    simp only [applyDiscoveryUpdate, runDiscoveryCheck, hsel]
    by_cases hany : (newHosts.any fun h => decide (h.id = hid)) = true
    · rw [if_pos hany]
      simp only [selectedHost, hsel]
      apply List.find?_eq_none.mpr
      intro h hmem
      simp only [decide_eq_true_eq]
      rintro ⟨hide, hne⟩
      exact hne (hunav h hmem hide)
    · rw [if_neg hany]
      rfl

/-- Claim C1, witness for the amended theorem at a concrete input: the
selected host A is absent from the empty update list, so the selection is
cleared on that update. -/
theorem C1_witness :
    (applyDiscoveryUpdate
        ⟨[⟨"A", "Device A", HostState.available⟩], some "A", [], [], [], ""⟩
        []).selectedHostId = none :=
  (C1_discovery_update
    ⟨[⟨"A", "Device A", HostState.available⟩], some "A", [], [], [], ""⟩
    [] "A" rfl).1 (by simp)

/-- Claim C4, counterexample: selecting a launch-required host from the
NoSelection state sets selectedHostId to that host, contradicting the
claim that the selection state does not change as part of the call. -/
theorem C4_counterexample :
    (⟨[⟨"L", "Device L", HostState.launchRequired⟩], none, [], [], [], ""⟩
        : CompState).selectedHostId = none ∧
    ((selectHost ⟨[⟨"L", "Device L", HostState.launchRequired⟩], none, [], [], [], ""⟩
        "L").1).selectedHostId = some "L" := by
  exact ⟨rfl, by decide⟩

/-- Claim C4, amended: for selectHost on a host found in launch-required or
setup-required state, the host id is pushed onto inProgressHostIds and the
Activation Service is invoked with the corresponding action keyed by that
host id, and additionally selectedHostId is set to the given id as part of
the same call; search input and targets are untouched and no further
transition happens automatically. -/
theorem C4_launch_setup (s : CompState) (hostId : String) (host : FridaHost)
    (hfind : selectedHost { s with selectedHostId := some hostId } = some host) :
    (host.state = HostState.launchRequired →
      selectHost s hostId =
        ({ s with selectedHostId := some hostId,
                  inProgressHostIds := s.inProgressHostIds ++ [hostId] },
         [Effect.activate ⟨FridaAction.launch, hostId, none⟩])) ∧
    (host.state = HostState.setupRequired →
      selectHost s hostId =
        ({ s with selectedHostId := some hostId,
                  inProgressHostIds := s.inProgressHostIds ++ [hostId] },
         [Effect.activate ⟨FridaAction.setup, hostId, none⟩])) := by
  constructor <;> intro hst <;>
    simp [selectHost, hfind, hst]

/-- Claim C4, witness for the amended theorem at a concrete input: the
launch-required host L is marked in progress, the launch activation is
emitted for L, and the selection is set to L. -/
theorem C4_witness :
    selectHost ⟨[⟨"L", "Device L", HostState.launchRequired⟩], none, [], [], [], ""⟩ "L" =
      (⟨[⟨"L", "Device L", HostState.launchRequired⟩], some "L", [], ["L"], [], ""⟩,
       [Effect.activate ⟨FridaAction.launch, "L", none⟩]) :=
  (C4_launch_setup
    ⟨[⟨"L", "Device L", HostState.launchRequired⟩], none, [], [], [], ""⟩
    "L" ⟨"L", "Device L", HostState.launchRequired⟩ (by decide)).1 rfl

/-- Claim C5, failing run: with hosts A and B and A selected, the
updateTargets flow issues a fetch for A; the selection then moves to B
before the response arrives; resuming the flow with the response for A
stores the targets of A in fridaTargets while B is the selected host,
because no check of the current selection is made after the yield. -/
theorem C5_stale_response_applied :
    (updateTargetsStart ⟨[⟨"A", "Device A", HostState.available⟩,
        ⟨"B", "Device B", HostState.available⟩], some "A", [], [], [], ""⟩).2 = some "A" ∧
    ((updateTargetsResume
        ((selectHost ⟨[⟨"A", "Device A", HostState.available⟩,
            ⟨"B", "Device B", HostState.available⟩], some "A", [], [], [], ""⟩ "B").1)
        (some [⟨"appA", "App on A"⟩])).selectedHostId = some "B") ∧
    ((updateTargetsResume
        ((selectHost ⟨[⟨"A", "Device A", HostState.available⟩,
            ⟨"B", "Device B", HostState.available⟩], some "A", [], [], [], ""⟩ "B").1)
        (some [⟨"appA", "App on A"⟩])).fridaTargets = [⟨"appA", "App on A"⟩]) := by
  exact ⟨by decide, by decide, by decide⟩

/-- Claim C6, counterexample: immediately after deselectHost runs, the
loaded target list is unchanged and in particular not empty, contradicting
the claim that the targets are discarded by the call itself. -/
theorem C6_counterexample :
    (deselectHost ⟨[⟨"A", "Device A", HostState.available⟩], some "A",
        [⟨"t1", "Target 1"⟩], [], [], ""⟩).fridaTargets = [⟨"t1", "Target 1"⟩] ∧
    (deselectHost ⟨[⟨"A", "Device A", HostState.available⟩], some "A",
        [⟨"t1", "Target 1"⟩], [], [], ""⟩).fridaTargets ≠ [] := by
  exact ⟨by decide, by decide⟩

/-- Claim C6, amended: deselectHost is always legal and returns the machine
to NoSelection by clearing selectedHostId, but leaves fridaTargets in
place; the loaded targets are discarded by the next run of the
updateTargets cycle, which clears the list and issues no fetch when no
host is selected. -/
theorem C6_deselect (s : CompState) :
    (deselectHost s).selectedHostId = none ∧
    (deselectHost s).fridaTargets = s.fridaTargets ∧
    (updateTargetsStart (deselectHost s)).1.fridaTargets = [] ∧
    (updateTargetsStart (deselectHost s)).2 = none :=
  ⟨rfl, rfl, rfl, rfl⟩

/-- Claim C3: for every activation emitted by selectHost or
interceptTarget, the corresponding identifier is on the in-progress list in
the state at invocation time and is no longer present after the finally
continuation runs, for either promise outcome; interceptTarget without a
valid selected host changes nothing and performs no activation, and with a
valid selected host invokes the service with action intercept, the id of
that host, and the target id. -/
theorem C3_activation_contract (s : CompState) (hostId targetId : String) :
    (∀ opts, Effect.activate opts ∈ (selectHost s hostId).2 →
       opts.hostId = hostId ∧
       hostId ∈ (selectHost s hostId).1.inProgressHostIds ∧
       ∀ ok : Bool,
         hostId ∉ (hostActivationFinally (selectHost s hostId).1 hostId ok).inProgressHostIds) ∧
    (selectedHost s = none → interceptTarget s targetId = (s, [])) ∧
    (∀ host, selectedHost s = some host →
       (interceptTarget s targetId).2 =
         [Effect.activate ⟨FridaAction.intercept, host.id, some targetId⟩] ∧
       targetId ∈ (interceptTarget s targetId).1.inProgressTargetIds ∧
       ∀ ok : Bool,
         targetId ∉
           (targetActivationFinally (interceptTarget s targetId).1 targetId ok).inProgressTargetIds) := by
  refine ⟨?_, ?_, ?_⟩
  · intro opts hmem
    cases hm : selectedHost { s with selectedHostId := some hostId } with
    | none => simp [selectHost, hm] at hmem
    | some host =>
      by_cases h1 : host.state = HostState.available
      · simp [selectHost, hm, h1] at hmem
      · by_cases h2 : host.state = HostState.launchRequired
        · simp [selectHost, hm, h1, h2] at hmem
          subst hmem
          refine ⟨rfl, ?_, ?_⟩
          · simp [selectHost, hm, h1, h2]
          · intro ok
            simp [selectHost, hm, h1, h2, hostActivationFinally, lodashPull, List.mem_filter]
        · by_cases h3 : host.state = HostState.setupRequired
          · simp [selectHost, hm, h1, h2, h3] at hmem
            subst hmem
            refine ⟨rfl, ?_, ?_⟩
            · simp [selectHost, hm, h1, h2, h3]
            · intro ok
              simp [selectHost, hm, h1, h2, h3, hostActivationFinally, lodashPull,
                List.mem_filter]
          · simp [selectHost, hm, h1, h2, h3] at hmem
  · intro hm
    simp [interceptTarget, hm]
  · intro host hm
    refine ⟨?_, ?_, ?_⟩
    · simp [interceptTarget, hm]
    · simp [interceptTarget, hm]
    · intro ok
      simp [interceptTarget, hm, targetActivationFinally, lodashPull, List.mem_filter]

/-- Claim C3, witness at a concrete input: with host H selected and
available, intercepting target t emits the intercept activation for H and
t, t is in progress at invocation time, and t is gone after the finally
continuation of a resolved promise. -/
theorem C3_witness :
    ((interceptTarget ⟨[⟨"H", "Device H", HostState.available⟩], some "H", [], [], [], ""⟩
        "t").2 = [Effect.activate ⟨FridaAction.intercept, "H", some "t"⟩]) ∧
    ("t" ∈ (interceptTarget ⟨[⟨"H", "Device H", HostState.available⟩], some "H", [], [], [], ""⟩
        "t").1.inProgressTargetIds) ∧
    ("t" ∉ (targetActivationFinally
        (interceptTarget ⟨[⟨"H", "Device H", HostState.available⟩], some "H", [], [], [], ""⟩
          "t").1 "t" true).inProgressTargetIds) :=
  have h := (C3_activation_contract
    ⟨[⟨"H", "Device H", HostState.available⟩], some "H", [], [], [], ""⟩ "H" "t").2.2
    ⟨"H", "Device H", HostState.available⟩ (by decide)
  ⟨h.1, h.2.1, h.2.2 true⟩

/-- Claim C7: each edit handler of the breakpoint card passes onChange a
snapshot that equals the previous in-progress result on every field other
than the targeted one, which carries the new value; for the headers edit
the new value is the pair list converted back to the keyed representation. -/
theorem C7_edit_frame (r : MockttpBreakpointRequestResult) (m u : String) (arr : HeadersArray) :
    (∀ r2, onMethodChanged r m = some r2 →
       r2.method = m ∧ r2.url = r.url ∧ r2.headers = r.headers) ∧
    ((onUrlChanged r u).url = u ∧ (onUrlChanged r u).method = r.method ∧
       (onUrlChanged r u).headers = r.headers) ∧
    ((onHeadersChanged r arr).headers = headersArrayToHeaders arr ∧
       (onHeadersChanged r arr).method = r.method ∧ (onHeadersChanged r arr).url = r.url) := by
  refine ⟨?_, ⟨rfl, rfl, rfl⟩, ⟨rfl, rfl, rfl⟩⟩
  intro r2 h
  by_cases hm : m = r.method
  · simp [onMethodChanged, hm] at h
  · simp only [onMethodChanged, if_neg hm, Option.some.injEq] at h
    subst h
    exact ⟨rfl, rfl, rfl⟩

/-- Claim C7, witness at a concrete input: changing the method of a GET
snapshot to POST yields a snapshot with method POST and the url and
headers of the original. -/
theorem C7_witness :
    (MockttpBreakpointRequestResult.mk "POST" "http://example.test/" []).method = "POST" ∧
    (MockttpBreakpointRequestResult.mk "POST" "http://example.test/" []).url =
      (MockttpBreakpointRequestResult.mk "GET" "http://example.test/" []).url ∧
    (MockttpBreakpointRequestResult.mk "POST" "http://example.test/" []).headers =
      (MockttpBreakpointRequestResult.mk "GET" "http://example.test/" []).headers :=
  (C7_edit_frame ⟨"GET", "http://example.test/", []⟩ "POST" "x" []).1
    ⟨"POST", "http://example.test/", []⟩ (by decide)

/-- Claim C9: onMethodChanged with the current method is a no-op that does
not invoke onChange; with a different method it passes onChange the
snapshot with only the method replaced, url and headers preserved. -/
theorem C9_method_noop (r : MockttpBreakpointRequestResult) (m : String) :
    (m = r.method → onMethodChanged r m = none) ∧
    (m ≠ r.method → onMethodChanged r m = some { r with method := m }) := by
  constructor <;> intro h <;> simp [onMethodChanged, h]

/-- Claim C9, witness at concrete inputs: setting GET on a GET snapshot
invokes no change, and setting PUT replaces only the method. -/
theorem C9_witness :
    onMethodChanged ⟨"GET", "http://example.test/", []⟩ "GET" = none ∧
    onMethodChanged ⟨"GET", "http://example.test/", []⟩ "PUT" =
      some ⟨"PUT", "http://example.test/", []⟩ :=
  ⟨(C9_method_noop ⟨"GET", "http://example.test/", []⟩ "GET").1 rfl,
   (C9_method_noop ⟨"GET", "http://example.test/", []⟩ "PUT").2 (by decide)⟩

/-- Claim C10: selectHost resets the search input to the empty string
exactly when the host identified for the new selection is in the available
state; in every other case, including an identified host in another state
or no identifiable host, the search input is left unchanged. -/
theorem C10_search_reset (s : CompState) (hostId : String) :
    (∀ host, selectedHost { s with selectedHostId := some hostId } = some host →
       (host.state = HostState.available → (selectHost s hostId).1.searchInput = "") ∧
       (host.state ≠ HostState.available →
          (selectHost s hostId).1.searchInput = s.searchInput)) ∧
    (selectedHost { s with selectedHostId := some hostId } = none →
       (selectHost s hostId).1.searchInput = s.searchInput) := by
  constructor
  · intro host hm
    constructor
    · intro h1
      simp [selectHost, hm, h1]
    · intro h1
      by_cases h2 : host.state = HostState.launchRequired
      · simp [selectHost, hm, h1, h2]
      · by_cases h3 : host.state = HostState.setupRequired
        · simp [selectHost, hm, h1, h2, h3]
        · simp [selectHost, hm, h1, h2, h3]
  · intro hm
    simp [selectHost, hm]

/-- Claim C10, witness at concrete inputs: selecting available host A
clears a previously typed filter, while selecting launch-required host L
leaves it unchanged. -/
theorem C10_witness :
    ((selectHost ⟨[⟨"A", "Device A", HostState.available⟩], none, [], [], [], "typed"⟩
        "A").1.searchInput = "") ∧
    ((selectHost ⟨[⟨"L", "Device L", HostState.launchRequired⟩], none, [], [], [], "typed"⟩
        "L").1.searchInput = "typed") :=
  ⟨((C10_search_reset ⟨[⟨"A", "Device A", HostState.available⟩], none, [], [], [], "typed"⟩
      "A").1 ⟨"A", "Device A", HostState.available⟩ (by decide)).1 rfl,
   ((C10_search_reset ⟨[⟨"L", "Device L", HostState.launchRequired⟩], none, [], [], [], "typed"⟩
      "L").1 ⟨"L", "Device L", HostState.launchRequired⟩ (by decide)).2 (by decide)⟩

/-- Multiplicity of every identifier other than the pulled one is
preserved by lodashPull. -/
theorem count_lodashPull_of_ne (ids : List String) (v x : String) (hx : x ≠ v) :
    (lodashPull ids v).count x = ids.count x := by
  induction ids with
  | nil => rfl
  | cons a rest ih =>
    by_cases hav : a = v
    · have hxa : x ≠ a := by rw [hav]; exact hx
      have h1 : lodashPull (a :: rest) v = lodashPull rest v := by
        simp [lodashPull, List.filter_cons, hav]
      rw [h1, ih]
      simp [List.count_cons, hxa]
    · have h1 : lodashPull (a :: rest) v = a :: lodashPull rest v := by
        simp [lodashPull, List.filter_cons, hav]
      rw [h1, List.count_cons, List.count_cons, ih]

/-- Claim C2, counterexample: two concurrent activations of the same
target t both set an activating marker, and the completion of one removes
every copy of the identifier, so the marker of the still-running
activation is also cleared instead of exactly one matching identifier
being removed. -/
theorem C2_counterexample :
    ((interceptTarget ((interceptTarget
        ⟨[⟨"H", "Device H", HostState.available⟩], some "H", [], [], [], ""⟩
        "t").1) "t").1).inProgressTargetIds = ["t", "t"] ∧
    (targetActivationFinally
      ((interceptTarget ((interceptTarget
        ⟨[⟨"H", "Device H", HostState.available⟩], some "H", [], [], [], ""⟩
        "t").1) "t").1) "t" true).inProgressTargetIds = [] := by
  exact ⟨by decide, by decide⟩

/-- Claim C2, amended: a completion removes every occurrence of its own
identifier from the in-progress list, which is exactly one occurrence
whenever identifiers are distinct, and it preserves the multiplicity of
every other identifier; hence two concurrent activations of different
targets do not interfere: after both start both markers are present, the
completion of the first clears only its own marker and leaves the other,
and the completion of the second then clears the remaining one. -/
theorem C2_removal_independence (ids : List String) (v x : String)
    (s : CompState) (host : FridaHost) (t1 t2 : String)
    (hm : selectedHost s = some host) (hne : t1 ≠ t2) :
    (v ∉ lodashPull ids v) ∧
    (x ≠ v → (lodashPull ids v).count x = ids.count x) ∧
    (t1 ∈ ((interceptTarget (interceptTarget s t1).1 t2).1).inProgressTargetIds ∧
     t2 ∈ ((interceptTarget (interceptTarget s t1).1 t2).1).inProgressTargetIds ∧
     ∀ ok1 : Bool,
       t1 ∉ (targetActivationFinally ((interceptTarget (interceptTarget s t1).1 t2).1)
              t1 ok1).inProgressTargetIds ∧
       t2 ∈ (targetActivationFinally ((interceptTarget (interceptTarget s t1).1 t2).1)
              t1 ok1).inProgressTargetIds ∧
       ∀ ok2 : Bool,
         t2 ∉ (targetActivationFinally
                (targetActivationFinally ((interceptTarget (interceptTarget s t1).1 t2).1)
                  t1 ok1) t2 ok2).inProgressTargetIds) := by
  have hm1 : selectedHost { s with inProgressTargetIds := s.inProgressTargetIds ++ [t1] }
      = some host := hm
  refine ⟨?_, ?_, ?_⟩
  · simp [lodashPull, List.mem_filter]
  · exact count_lodashPull_of_ne ids v x
  · refine ⟨?_, ?_, ?_⟩
    · simp [interceptTarget, hm, hm1]
    · simp [interceptTarget, hm, hm1]
    · intro ok1
      refine ⟨?_, ?_, ?_⟩
      · simp [targetActivationFinally, lodashPull, List.mem_filter]
      · simp [interceptTarget, hm, hm1, targetActivationFinally, lodashPull, List.mem_filter,
          hne.symm]
      · intro ok2
        simp [targetActivationFinally, lodashPull, List.mem_filter]

/-- Claim C2, witness at concrete inputs: with host H selected, starting
activations for targets t1 and t2 sets both markers; completing t1 clears
only t1, leaving t2, and completing t2 afterwards clears t2. -/
theorem C2_witness :
    ("t1" ∈ ((interceptTarget (interceptTarget
        ⟨[⟨"H", "Device H", HostState.available⟩], some "H", [], [], [], ""⟩
        "t1").1 "t2").1).inProgressTargetIds) ∧
    ("t2" ∈ ((interceptTarget (interceptTarget
        ⟨[⟨"H", "Device H", HostState.available⟩], some "H", [], [], [], ""⟩
        "t1").1 "t2").1).inProgressTargetIds) ∧
    ("t1" ∉ (targetActivationFinally ((interceptTarget (interceptTarget
        ⟨[⟨"H", "Device H", HostState.available⟩], some "H", [], [], [], ""⟩
        "t1").1 "t2").1) "t1" true).inProgressTargetIds) ∧
    ("t2" ∈ (targetActivationFinally ((interceptTarget (interceptTarget
        ⟨[⟨"H", "Device H", HostState.available⟩], some "H", [], [], [], ""⟩
        "t1").1 "t2").1) "t1" true).inProgressTargetIds) ∧
    ("t2" ∉ (targetActivationFinally (targetActivationFinally ((interceptTarget (interceptTarget
        ⟨[⟨"H", "Device H", HostState.available⟩], some "H", [], [], [], ""⟩
        "t1").1 "t2").1) "t1" true) "t2" false).inProgressTargetIds) :=
  have h := (C2_removal_independence [] "v" "x"
    ⟨[⟨"H", "Device H", HostState.available⟩], some "H", [], [], [], ""⟩
    ⟨"H", "Device H", HostState.available⟩ "t1" "t2" (by decide) (by decide)).2.2
  ⟨h.1, h.2.1, (h.2.2 true).1, (h.2.2 true).2.1, (h.2.2 true).2.2 false⟩

/-- Every name occurring in the flattened pair list of a keyed headers
mapping occurs among the keys of that mapping. -/
theorem fst_mem_of_mem_headersToHeadersArray (hs : RequestHeaders) (p : String × String)
    (h : p ∈ headersToHeadersArray hs) : p.1 ∈ hs.map Prod.fst := by
  induction hs with
  | nil => cases h
  | cons q rest ih =>
    obtain ⟨k, v⟩ := q
    cases v with
    | one s =>
      simp only [headersToHeadersArray, List.mem_cons] at h
      rcases h with h | h
      · subst h
        simp
      · simp only [List.map_cons, List.mem_cons]
        exact Or.inr (ih h)
    | many vs =>
      simp only [headersToHeadersArray, List.mem_append, List.mem_map] at h
      rcases h with ⟨xv, hxv, rfl⟩ | h
      · simp
      · simp only [List.map_cons, List.mem_cons]
        exact Or.inr (ih h)

/-- Inserting a pair whose key does not occur in a prefix of the keyed
mapping walks past that prefix unchanged. -/
theorem addHeaderPair_append_of_not_mem (hs1 hs2 : RequestHeaders) (k v : String)
    (hk : k ∉ hs1.map Prod.fst) :
    addHeaderPair (hs1 ++ hs2) k v = hs1 ++ addHeaderPair hs2 k v := by
  induction hs1 with
  | nil => rfl
  | cons q rest ih =>
    obtain ⟨k0, v0⟩ := q
    simp only [List.map_cons, List.mem_cons] at hk
    push_neg at hk
    obtain ⟨hk0, hkrest⟩ := hk
    simp only [List.cons_append, addHeaderPair]
    rw [if_neg (fun hh => hk0 hh.symm)]
    exact congrArg (List.cons (k0, v0)) (ih hkrest)

/-- Folding pair insertions whose keys all avoid a prefix of the seed
leaves that prefix untouched. -/
theorem foldl_addHeaderPair_append (arr : HeadersArray) (hs1 hs2 : RequestHeaders)
    (h : ∀ p ∈ arr, p.1 ∉ hs1.map Prod.fst) :
    arr.foldl (fun hs p => addHeaderPair hs p.1 p.2) (hs1 ++ hs2) =
      hs1 ++ arr.foldl (fun hs p => addHeaderPair hs p.1 p.2) hs2 := by
  induction arr generalizing hs2 with
  | nil => rfl
  | cons p rest ih =>
    simp only [List.foldl_cons]
    rw [addHeaderPair_append_of_not_mem hs1 hs2 p.1 p.2 (h p (List.mem_cons_self _ _))]
    exact ih (addHeaderPair hs2 p.1 p.2) (fun q hq => h q (List.mem_cons_of_mem _ hq))

/-- Folding the pairs of one repeated key onto its array entry appends the
values in order. -/
theorem foldl_addHeaderPair_many (k : String) (ss vs : List String) :
    (vs.map (fun v => (k, v))).foldl (fun hs p => addHeaderPair hs p.1 p.2)
        [(k, HeaderValue.many ss)] =
      [(k, HeaderValue.many (ss ++ vs))] := by
  induction vs generalizing ss with
  | nil => simp
  | cons v rest ih =>
    simp only [List.map_cons, List.foldl_cons]
    have h1 : addHeaderPair [(k, HeaderValue.many ss)] k v
        = [(k, HeaderValue.many (ss ++ [v]))] := by
      simp [addHeaderPair]
    rw [h1, ih (ss ++ [v])]
    simp

/-- Claim C8: converting a canonical keyed headers mapping to the ordered
pair list and back reproduces the original mapping exactly, including the
order of entries and duplicate header names kept as ordered value
sequences rather than collapsed keys. -/
theorem C8_header_roundtrip (hs : RequestHeaders) (hcan : CanonicalHeaders hs) :
    headersArrayToHeaders (headersToHeadersArray hs) = hs := by
  induction hs with
  | nil => rfl
  | cons q rest ih =>
    obtain ⟨k, v⟩ := q
    obtain ⟨hnodup, hvals⟩ := hcan
    simp only [List.map_cons, List.nodup_cons] at hnodup
    obtain ⟨hknotin, hnodup_rest⟩ := hnodup
    have hrest : CanonicalHeaders rest :=
      ⟨hnodup_rest, fun p hp => hvals p (List.mem_cons_of_mem _ hp)⟩
    have hkeys : ∀ p ∈ headersToHeadersArray rest,
        p.1 ∉ ([(k, v)] : RequestHeaders).map Prod.fst := by
      intro p hp
      simp only [List.map_cons, List.map_nil, List.mem_singleton]
      intro hpk
      exact hknotin (hpk ▸ fst_mem_of_mem_headersToHeadersArray rest p hp)
    have hfoldrest : (headersToHeadersArray rest).foldl
        (fun hs p => addHeaderPair hs p.1 p.2) [] = rest := ih hrest
    cases v with
    | one s =>
      show ((k, s) :: headersToHeadersArray rest).foldl
          (fun hs p => addHeaderPair hs p.1 p.2) [] = (k, HeaderValue.one s) :: rest
      simp only [List.foldl_cons]
      have h0 : addHeaderPair ([] : RequestHeaders) k s
          = [(k, HeaderValue.one s)] ++ [] := rfl
      rw [h0, foldl_addHeaderPair_append _ _ _ hkeys, hfoldrest]
      rfl
    | many vs =>
      have hv2 : 2 ≤ vs.length := hvals (k, HeaderValue.many vs) (List.mem_cons_self _ _)
      rcases vs with _ | ⟨a, _ | ⟨b, t⟩⟩
      · simp at hv2
      · simp at hv2
      · show (((a :: b :: t).map (fun v => (k, v)) ++ headersToHeadersArray rest).foldl
            (fun hs p => addHeaderPair hs p.1 p.2) []
            : RequestHeaders) = (k, HeaderValue.many (a :: b :: t)) :: rest
        simp only [List.map_cons, List.cons_append, List.foldl_cons, List.foldl_append]
        have h0 : addHeaderPair ([] : RequestHeaders) k a
            = [(k, HeaderValue.one a)] := rfl
        have h1 : addHeaderPair [(k, HeaderValue.one a)] k b
            = [(k, HeaderValue.many [a, b])] := by
          simp [addHeaderPair]
        rw [h0, h1, foldl_addHeaderPair_many k [a, b] t]
        have h2 : ([(k, HeaderValue.many ([a, b] ++ t))] : RequestHeaders)
            = [(k, HeaderValue.many (a :: b :: t))] ++ [] := by simp
        rw [h2, foldl_addHeaderPair_append _ _ _ ?hk2, hfoldrest]
        · rfl
        · intro p hp
          have := hkeys p hp
          simpa using this

/-- Claim C8, witness at a concrete input: a mapping with a repeated
set-cookie name stored as an ordered pair of values and a single host
entry survives the round trip exactly. -/
theorem C8_witness :
    CanonicalHeaders [("set-cookie", HeaderValue.many ["a=1", "b=2"]),
      ("host", HeaderValue.one "example.test")] ∧
    headersArrayToHeaders (headersToHeadersArray
      [("set-cookie", HeaderValue.many ["a=1", "b=2"]),
       ("host", HeaderValue.one "example.test")]) =
      [("set-cookie", HeaderValue.many ["a=1", "b=2"]),
       ("host", HeaderValue.one "example.test")] :=
  ⟨by decide, C8_header_roundtrip _ (by decide)⟩

end Httptoolkit
